import Mathlib

/-
Verification of src/app.py ("Video Summarizer Pro", a Streamlit page that fetches
YouTube captions with pytube, cleans them, and sends them to the Gemini API).

Shallow embedding conventions:
* Python strings are Lean `String`s; `clean_srt` works on `List Char`.
* Exceptions raised by library calls are modelled as values (`Except`, sum
  constructors); the generic `except` handlers of the source become the
  corresponding `match` arms.
* Python truthiness of optional string state (`None` and `""` are falsy) is the
  function `truthy`.
* The regular-expression passes of `clean_srt` are compiled to recursive
  functions whose behaviour was derived from Python `re` semantics
  (leftmost, non-overlapping matching; greedy `\s*` with backtracking;
  `^`/`$` under `re.MULTILINE`; `.` not matching a newline).  The character
  classes `\s` and `\d` are modelled on the ASCII range.
-/

/-- Python's `\s` class on the ASCII range: space, tab, newline, carriage
return, vertical tab, form feed. -/
def pySpace (c : Char) : Bool :=
  c == ' ' || c == '\t' || c == '\n' || c == '\r' || c == '\x0b' || c == '\x0c'

/-- The line structure of a Python string: split at every `'\n'`.  The result is
never empty and no returned line contains `'\n'`. -/
def linesOf : List Char → List (List Char)
  | [] => [[]]
  | c :: r =>
    if c = '\n' then [] :: linesOf r
    else
      match linesOf r with
      | [] => [[c]]
      | l :: ls => (c :: l) :: ls

/-- Rejoin lines with `'\n'`; left inverse of `linesOf`. -/
def unlines : List (List Char) → List Char
  | [] => []
  | [l] => l
  | l :: ls => l ++ '\n' :: unlines ls

/-- A line consisting only of whitespace (possibly empty). -/
def isBlankLine (l : List Char) : Bool := l.all pySpace

/-- A line matched by `^\d+\s*$`: one or more digits followed by nothing but
whitespace. -/
def isDigitWsLine (l : List Char) : Bool :=
  !(l.takeWhile Char.isDigit).isEmpty && (l.dropWhile Char.isDigit).all pySpace

/-- First pass of `clean_srt`: `re.sub(r'^\d+\s*$', '', text, flags=re.MULTILINE)`.
Under `re.MULTILINE` a match starts at a line made of digits plus trailing
whitespace.  The greedy `\s*` runs over the following blank lines and backtracks
to end just before the last newline of that whitespace run (or at the end of the
string), so the digit line together with the blank lines that follow it
collapses to a single empty line; scanning resumes at the next non-blank line. -/
def sub1go : List (List Char) → List (List Char)
  | [] => []
  | l :: rest =>
    if isDigitWsLine l then [] :: sub1go (rest.dropWhile isBlankLine)
    else l :: sub1go rest
termination_by ls => ls.length
decreasing_by
  · exact Nat.lt_succ_of_le (List.dropWhile_sublist _).length_le
  · exact Nat.lt_succ_self _

/-- Consume exactly `n` decimal digits (`\d{n}`) and return the rest. -/
def chompDigits : Nat → List Char → Option (List Char)
  | 0, cs => some cs
  | _ + 1, [] => none
  | n + 1, c :: cs => if c.isDigit then chompDigits n cs else none

/-- Consume one literal character. -/
def chompLit (a : Char) : List Char → Option (List Char)
  | [] => none
  | c :: cs => if c = a then some cs else none

/-- Consume one SRT stamp `\d{2}:\d{2}:\d{2},\d{3}`. -/
def chompStamp (cs : List Char) : Option (List Char) :=
  ((((((chompDigits 2 cs).bind (chompLit ':')).bind (chompDigits 2)).bind
    (chompLit ':')).bind (chompDigits 2)).bind (chompLit ',')).bind (chompDigits 3)

/-- Consume `\d{2}:\d{2}:\d{2},\d{3} --> \d{2}:\d{2}:\d{2},\d{3}`. -/
def chompTS (cs : List Char) : Option (List Char) :=
  (((((chompStamp cs).bind (chompLit ' ')).bind (chompLit '-')).bind
    (chompLit '-')).bind (chompLit '>')).bind ((chompLit ' ') · |>.bind chompStamp)

/-- Leftmost start position, on one line, of the timestamp pattern followed by
nothing but whitespace up to the end of the line; returns the text before it. -/
def findTS : List Char → Option (List Char)
  | [] => none
  | c :: r =>
    match chompTS (c :: r) with
    | some rest =>
      if rest.all pySpace then some [] else (findTS r).map (c :: ·)
    | none => (findTS r).map (c :: ·)

/-- A line that is exactly one SRT timestamp `HH:MM:SS,mmm --> HH:MM:SS,mmm`. -/
def isTSLine (l : List Char) : Bool := chompTS l == some []

/-- Second pass: `re.sub(r'\d{2}:\d{2}:\d{2},\d{3} --> \d{2}:\d{2}:\d{2},\d{3}\s*$',
'', text, flags=re.MULTILINE)`.  The pattern is not anchored at a line start, so
on each line the leftmost occurrence of the timestamp pattern whose tail up to
the line end is whitespace matches; the line keeps only the text before the
match, and (as in the first pass) the greedy `\s*` absorbs the following blank
lines up to the last newline of the whitespace run. -/
def sub2go : List (List Char) → List (List Char)
  | [] => []
  | l :: rest =>
    match findTS l with
    | some pre => pre :: sub2go (rest.dropWhile isBlankLine)
    | none => l :: sub2go rest
termination_by ls => ls.length
decreasing_by
  · exact Nat.lt_succ_of_le (List.dropWhile_sublist _).length_le
  · exact Nat.lt_succ_self _

/-- Third pass: `re.sub(r'<.*?>', '', text)`.  `.` does not match a newline, so a
match never leaves its line (the function is applied per line): at each `<` the
lazy `.*?` runs to the first `>` later on the line; a `<` with no later `>` on
its line is kept. -/
def removeTags : List Char → List Char
  | [] => []
  | c :: r =>
    if c == '<' && r.contains '>' then removeTags ((r.dropWhile (· != '>')).drop 1)
    else c :: removeTags r
termination_by l => l.length
decreasing_by
  · calc ((r.dropWhile (· != '>')).drop 1).length
        ≤ (r.dropWhile (· != '>')).length := by
          rw [List.length_drop]; omega
      _ ≤ r.length := (List.dropWhile_sublist _).length_le
      _ < r.length + 1 := Nat.lt_succ_self _
  · exact Nat.lt_succ_self _

/-- Fourth pass: `re.sub(r'\n\s*\n', '\n', text, flags=re.MULTILINE)`.  A match
sits at the newline that precedes a run of blank lines; the greedy `\s*` absorbs
the run up to its last newline.  A run of blank lines between two other lines
disappears; a run of blank lines ending the string collapses to the run's last
line. -/
def sub4go : List (List Char) → List (List Char)
  | [] => []
  | [l] => [l]
  | l :: m :: rest =>
    if isBlankLine m then
      match h : (m :: rest).dropWhile isBlankLine with
      | [] => [l, (m :: rest).getLast (by simp)]
      | k :: ks => l :: sub4go (k :: ks)
    else l :: sub4go (m :: rest)
termination_by ls => ls.length
decreasing_by
  · have hle : (k :: ks).length ≤ (m :: rest).length := by
      rw [← h]; exact (List.dropWhile_sublist _).length_le
    simp only [List.length_cons] at hle ⊢
    omega
  · simp only [List.length_cons]; omega

/-- Python `str.strip()`: remove leading and trailing whitespace. -/
def pyStrip (t : List Char) : List Char :=
  ((t.dropWhile pySpace).reverse.dropWhile pySpace).reverse

/-- `clean_srt` (src/app.py lines 84-94) on character lists: the four `re.sub`
passes, then `strip()`. -/
def cleanSrtL (t : List Char) : List Char :=
  pyStrip (unlines (sub4go ((sub2go (sub1go (linesOf t))).map removeTags)))

/-- `clean_srt` on strings. -/
def clean_srt (s : String) : String := String.mk (cleanSrtL s.data)

/-- A line consisting only of an index number: one or more digits, nothing else. -/
def isIndexLine (l : List Char) : Bool := !l.isEmpty && l.all Char.isDigit

/-- The text still contains a blank line bounded by newlines: somewhere a
newline is followed by whitespace only up to a further newline. -/
def hasBlankGap : List Char → Bool
  | [] => false
  | c :: r => (c == '\n' && (r.takeWhile pySpace).contains '\n') || hasBlankGap r

/-- A line still containing an angle-bracket tag: a `<` with a later `>`. -/
def hasTag : List Char → Bool
  | [] => false
  | c :: r => (c == '<' && r.contains '>') || hasTag r

/-- Neither end of the text carries whitespace. -/
def strippedEnds (t : List Char) : Bool :=
  (match t.head? with
   | none => true
   | some c => !pySpace c)
  && (match t.getLast? with
      | none => true
      | some c => !pySpace c)

/-- Every line except possibly the last is non-blank. -/
def midNonblank : List (List Char) → Bool
  | [] => true
  | [_] => true
  | x :: rest => !isBlankLine x && midNonblank rest

/-- Every line except possibly the first and the last is non-blank. -/
def interiorNonblank : List (List Char) → Bool
  | [] => true
  | _ :: rest => midNonblank rest

/-- The exception classes distinguished by the `except` clauses of
`get_captions_and_title`: pytube's `RegexMatchError`, any other `PytubeError`,
and any other `Exception` (with the text Python interpolates for the value). -/
inductive PyExn where
  | regexMatch : PyExn
  | pytube (e : String) : PyExn
  | other (e : String) : PyExn
deriving DecidableEq

/-- The error message the matching handler builds (src/app.py lines 144-156). -/
def pyExnMsg : PyExn → String
  | .regexMatch => "Pytube Regex Error: Could not parse video page. YouTube might have updated its structure. Try updating pytube (`pip install --upgrade pytube`)."
  | .pytube e => "Pytube Error: " ++ e ++ ". The video might be unavailable, age-restricted, or private."
  | .other e => "An unexpected error occurred: " ++ e

instance : DecidableEq (Except PyExn String) := fun x y =>
  match x, y with
  | .ok a, .ok b =>
    if h : a = b then .isTrue (by rw [h]) else .isFalse (by simp [h])
  | .error a, .error b =>
    if h : a = b then .isTrue (by rw [h]) else .isFalse (by simp [h])
  | .ok _, .error _ => .isFalse (by simp)
  | .error _, .ok _ => .isFalse (by simp)

/-- One caption track of `yt.captions`: its language code and the outcome of
`caption.generate_srt_captions()` (an SRT string, or a raised exception). -/
structure CaptionTrack where
  code : String
  srt : Except PyExn String
deriving DecidableEq

/-- A successfully constructed `YouTube` object: its `title` and its caption
query `yt.captions` — a mapping keyed by language code in insertion order,
modelled as an association list. -/
structure YtVideo where
  title : String
  captions : List (String × CaptionTrack)
deriving DecidableEq

/-- `get_captions_and_title` (src/app.py lines 96-157).  The argument is the
outcome of `YouTube(video_url)` together with the attribute reads on it: either
an exception or a `YtVideo`.  Returns the `(captions, title, error)` triple. -/
def get_captions_and_title (fetch : Except PyExn YtVideo) (lang_code : String) :
    Option String × String × Option String :=
  match fetch with
  | .error e => (none, "Error", some (pyExnMsg e))
  | .ok yt =>
    if yt.captions.isEmpty then
      (none, yt.title, some ("No caption tracks found for '" ++ yt.title ++ "'."))
    else
      let caption0 := yt.captions.lookup lang_code
      let caption1 :=
        if caption0.isNone && (yt.captions.map Prod.fst).contains ("a." ++ lang_code) then
          yt.captions.lookup ("a." ++ lang_code)
        else caption0
      let caption2 :=
        if caption1.isNone then
          match yt.captions.map Prod.fst with
          | [] => none
          | k :: _ => yt.captions.lookup k
        else caption1
      match caption2 with
      | none => (none, yt.title, some ("Failed to retrieve any captions for '" ++ yt.title ++ "'."))
      | some cap =>
        match cap.srt with
        | .error e => (none, "Error", some (pyExnMsg e))
        | .ok srt_captions =>
          if srt_captions = "" then
            (none, yt.title, some ("Failed to generate SRT content for '" ++ cap.code ++ "' captions."))
          else
            (some (clean_srt srt_captions), yt.title, none)

/-- The language code `get_captions_and_title` is called with (its Python
default parameter, used by the process button). -/
def defaultLangCode : String := "en"

/-- The three-stage fallback as the specification words it: the track for the
requested language code; otherwise the auto-generated track `a.<lang>` if a key
of that form is present; otherwise the first available caption track. -/
def selectCaptionSpec (captions : List (String × CaptionTrack)) (lang_code : String) :
    Option CaptionTrack :=
  match captions.lookup lang_code with
  | some c => some c
  | none =>
    match captions.lookup ("a." ++ lang_code) with
    | some c => some c
    | none => captions.head?.map Prod.snd

/-- Outcome of one `generate_content` call: a raised exception, a response with
no parts and a safety block reason, a response with no parts and no block
reason, or a response with text. -/
inductive GenOutcome where
  | raise (e : String)
  | blocked (reason : String)
  | emptyResp
  | text (t : String)

/-- The `full_prompt` built inside `gemini_generate` (src/app.py line 166):
the prompt, then the caption text wrapped in triple quotes. -/
def mkFullPrompt (prompt text_input : String) : String :=
  prompt ++ "\n\nVideo Captions:\n\"\"\"\n" ++ text_input ++ "\n\"\"\""

/-- `gemini_generate` (src/app.py lines 161-179).  `api n p` is the outcome the
Gemini service would give the `n`-th `generate_content` call with prompt `p`;
the second component of the result is the list of requests actually sent.  The
body makes a single call — there is no loop and no sleep. -/
def gemini_generate (api_key_validated : Bool) (api : Nat → String → GenOutcome)
    (text_input prompt : String) : String × List String :=
  if !api_key_validated then
    ("Error: API Key not validated or Gemini model not initialized.", [])
  else
    let full_prompt := mkFullPrompt prompt text_input
    match api 0 full_prompt with
    | .raise e => ("Error generating content: " ++ e, [full_prompt])
    | .blocked reason =>
      ("Error: Gemini request blocked due to safety settings (" ++ reason ++ ").", [full_prompt])
    | .emptyResp =>
      ("Error: Gemini returned an empty response. The prompt might be invalid or the model could not generate content.", [full_prompt])
    | .text t => (t, [full_prompt])

/-- The summary prompt (tab 1). -/
def summaryPrompt : String :=
  "Summarize the key information found in these video captions concisely (2-4 paragraphs). Focus on the main topics, key findings, or conclusions. Assume the captions represent the video's content."

/-- The Q&A prompt (tab 2): a fixed template with the user's question inside. -/
def qaPrompt (question : String) : String :=
  "Based *only* on the provided video captions, answer the following question accurately and concisely:\n\nQuestion: " ++ question ++ "\n\nAnswer:"

/-- The flashcards prompt (tab 3). -/
def flashcardsPrompt : String :=
  "Generate 5 flashcards based on the key information in these video captions. Format each as:\nQ: [Question related to a key point]\nA: [Concise answer based *only* on the captions]\n\n---\n"

/-- The quiz prompt (tab 4). -/
def quizPrompt : String :=
  "Create a 5-question multiple-choice quiz based *only* on the provided video captions. Include 4 options (A, B, C, D) for each question and indicate the correct answer. Format clearly."

/-- The key-points prompt (tab 5). -/
def keyPointsPrompt : String :=
  "List the main key points or takeaways from these video captions as a bulleted list. Be concise and focus on the most important information presented in the text."

/-- The prompt strings that appear as fixed literals in the module. -/
def fixedAnalysisPrompts : List String :=
  [summaryPrompt, flashcardsPrompt, quizPrompt, keyPointsPrompt]

/-- The session-state fields of the page. -/
structure SessionState where
  video_url : String
  caption_text : Option String
  video_title : Option String
  processing_error : Option String
  summary : Option String
  qa_answer : Option String
  flashcards : Option String
  quiz : Option String
  key_points : Option String
  audio_summary_path : Option String
deriving DecidableEq

/-- The URL-change handler (src/app.py lines 206-217): when the text-input value
differs from the stored URL, store the new URL and set every derived result
field to `None`. -/
def urlChange (s : SessionState) (url_input : String) : SessionState :=
  if url_input ≠ s.video_url then
    { video_url := url_input
      caption_text := none
      video_title := none
      processing_error := none
      summary := none
      qa_answer := none
      flashcards := none
      quiz := none
      key_points := none
      audio_summary_path := none }
  else s

/-- Python truthiness of an optional string field: `None` and `""` are falsy. -/
def truthy : Option String → Bool
  | none => false
  | some s => s != ""

/-- The constant `TTS_FILENAME` (src/app.py line 13). -/
def TTS_FILENAME : String := "summary_audio.mp3"

/-- Tab 7 "Audio Overview" (src/app.py lines 336-355).  Inputs: the stored
summary and audio path, whether `TTS_FILENAME` already exists on disk, and
whether `gTTS` succeeds.  Returns the new `audio_summary_path` and the text
passed to `text_to_audio` (i.e. to `gTTS`), `none` when no synthesis call is
made. -/
def audioTab (summary audio_summary_path : Option String) (fileOnDisk ttsOk : Bool) :
    Option String × Option String :=
  if truthy summary && !truthy audio_summary_path then
    if !fileOnDisk then
      if ttsOk then (some TTS_FILENAME, some (summary.getD ""))
      else (none, some (summary.getD ""))
    else (some TTS_FILENAME, none)
  else (audio_summary_path, none)

/-- Decorator census entry: a module-level function of src/app.py and the number
of framework cache decorators (`st.cache_data` / `st.cache_resource`) applied
to it. -/
structure AppFunction where
  name : String
  cacheDecorators : Nat
deriving DecidableEq

/-- The functions src/app.py defines.  None carries a cache decorator in this
revision (the cached Whisper loader of earlier revisions was removed; the
module's only decorator-like construct is gone, line 81). -/
def appFunctions : List AppFunction :=
  [⟨"clean_srt", 0⟩, ⟨"get_captions_and_title", 0⟩,
   ⟨"gemini_generate", 0⟩, ⟨"text_to_audio", 0⟩]

/-- Total number of cache-decorator usages in the module. -/
def cacheUsageCount : Nat := (appFunctions.map AppFunction.cacheDecorators).sum

/-- Example caption track used by witnesses. -/
def exTrack : CaptionTrack :=
  ⟨"fr", .ok "1\n00:00:01,000 --> 00:00:02,000\nHello\n"⟩

/-- Example video with a single non-English caption track. -/
def exVideo : YtVideo := ⟨"T", [("fr", exTrack)]⟩

/-- Example caption track whose SRT generation raises a `PytubeError`. -/
def exErrTrack : CaptionTrack := ⟨"en", .error (.pytube "net")⟩

/-- Example video whose only track fails SRT generation. -/
def exErrVideo : YtVideo := ⟨"T", [("en", exErrTrack)]⟩

/-- One exact SRT timestamp, as characters. -/
def tsChars : List Char := "00:00:01,000 --> 00:00:02,000".data

/-- Example session state with every derived field populated. -/
def exState : SessionState :=
  ⟨"old", some "c", some "t", some "e", some "s", some "q", some "f",
   some "z", some "k", some "a"⟩

/-- Association-list membership agrees with key lookup. -/
theorem lookup_isSome_eq_contains (l : List (String × CaptionTrack)) (k : String) :
    (l.lookup k).isSome = (l.map Prod.fst).contains k := by
  induction l with
  | nil => rfl
  | cons a t ih =>
    obtain ⟨k', v⟩ := a
    simp only [List.lookup, List.map_cons, List.contains_cons]
    cases h : k == k' <;> simp [h, ih]

/-- With a non-empty caption set, `get_captions_and_title` behaves as the
three-stage specification selection followed by SRT generation and cleaning. -/
theorem get_ok_eq (yt : YtVideo) (lang : String) (h : yt.captions ≠ []) :
    get_captions_and_title (.ok yt) lang =
      match selectCaptionSpec yt.captions lang with
      | none => (none, yt.title, some ("Failed to retrieve any captions for '" ++ yt.title ++ "'."))
      | some cap =>
        match cap.srt with
        | .error e => (none, "Error", some (pyExnMsg e))
        | .ok srt =>
          if srt = "" then
            (none, yt.title, some ("Failed to generate SRT content for '" ++ cap.code ++ "' captions."))
          else (some (clean_srt srt), yt.title, none) := by
  obtain ⟨title, captions⟩ := yt
  simp only at h
  obtain ⟨⟨k0, v0⟩, tl, rfl⟩ : ∃ p tl, captions = p :: tl := by
    cases captions with
    | nil => exact absurd rfl h
    | cons p tl => exact ⟨p, tl, rfl⟩
  simp only [get_captions_and_title, selectCaptionSpec, List.isEmpty_cons]
  cases h1 : ((k0, v0) :: tl).lookup lang with
  | some c => simp [h1]
  | none =>
    cases h2 : ((k0, v0) :: tl).lookup ("a." ++ lang) with
    | some c =>
      have hcont : (List.map Prod.fst ((k0, v0) :: tl)).contains ("a." ++ lang) = true := by
        have hx := lookup_isSome_eq_contains ((k0, v0) :: tl) ("a." ++ lang)
        rw [h2] at hx
        exact hx.symm
      simp only [h1, h2, Option.isNone_none, hcont]
      simp
    | none =>
      have hcont : (List.map Prod.fst ((k0, v0) :: tl)).contains ("a." ++ lang) = false := by
        have hx := lookup_isSome_eq_contains ((k0, v0) :: tl) ("a." ++ lang)
        rw [h2] at hx
        exact hx.symm
      have hk0 : ((k0, v0) :: tl).lookup k0 = some v0 := by
        simp [List.lookup]
      simp only [h1, h2, Option.isNone_none, hcont]
      simp [hk0]

/-- The specification selection succeeds whenever the caption set is non-empty. -/
theorem selectCaptionSpec_isSome (captions : List (String × CaptionTrack))
    (lang : String) (h : captions ≠ []) :
    (selectCaptionSpec captions lang).isSome = true := by
  unfold selectCaptionSpec
  cases h1 : captions.lookup lang with
  | some c => rfl
  | none =>
    cases h2 : captions.lookup ("a." ++ lang) with
    | some c => rfl
    | none =>
      cases captions with
      | nil => exact absurd rfl h
      | cons p tl => rfl

/-- When the selected track's SRT generation raises, the exception handler's
triple is returned. -/
theorem get_ok_srt_err (yt : YtVideo) (lang : String) (cap : CaptionTrack)
    (e : PyExn) (h : yt.captions ≠ [])
    (hsel : selectCaptionSpec yt.captions lang = some cap)
    (hsrt : cap.srt = .error e) :
    get_captions_and_title (.ok yt) lang = (none, "Error", some (pyExnMsg e)) := by
  rw [get_ok_eq yt lang h, hsel]
  dsimp only
  rw [hsrt]

/-- When the selected track's SRT generation returns a string, the result is
the empty-SRT error or the cleaned captions. -/
theorem get_ok_srt_ok (yt : YtVideo) (lang : String) (cap : CaptionTrack)
    (s : String) (h : yt.captions ≠ [])
    (hsel : selectCaptionSpec yt.captions lang = some cap)
    (hsrt : cap.srt = .ok s) :
    get_captions_and_title (.ok yt) lang =
      if s = "" then
        (none, yt.title, some ("Failed to generate SRT content for '" ++ cap.code ++ "' captions."))
      else (some (clean_srt s), yt.title, none) := by
  rw [get_ok_eq yt lang h, hsel]
  dsimp only
  rw [hsrt]

/-- C1: for every video whose caption set is non-empty, the caption track is
selected by the three-stage fallback of `selectCaptionSpec` — the requested
language code (`defaultLangCode` at the call site), otherwise the
auto-generated `a.<lang>` track when such a key is present, otherwise the
first available track — and the cleaned SRT content of the selected track is
what is returned as the caption text. -/
theorem c1_caption_selection (yt : YtVideo) (lang : String) (cap : CaptionTrack)
    (srt : String) (h : yt.captions ≠ [])
    (hsel : selectCaptionSpec yt.captions lang = some cap)
    (hsrt : cap.srt = .ok srt) (hne : srt ≠ "") :
    get_captions_and_title (.ok yt) lang = (some (clean_srt srt), yt.title, none) := by
  rw [get_ok_srt_ok yt lang cap srt h hsel hsrt, if_neg hne]

/-- C1 witness: a video with a single non-English track, requested in English,
falls back to the first available track, whose cleaned SRT is returned. -/
theorem c1_caption_selection_witness :
    get_captions_and_title (.ok exVideo) defaultLangCode
      = (some (clean_srt "1\n00:00:01,000 --> 00:00:02,000\nHello\n"), "T", none) :=
  c1_caption_selection exVideo defaultLangCode exTrack
    "1\n00:00:01,000 --> 00:00:02,000\nHello\n" (by decide) (by decide) rfl (by decide)

/-- C2 counterexample: for a video whose caption set is empty the function
returns no transcript at all, only an error message — it fails rather than
falling back to audio download and Whisper transcription (the Whisper path was
removed from this revision, src/app.py line 81). -/
theorem c2_counterexample :
    get_captions_and_title (.ok ⟨"T", []⟩) "en"
      = (none, "T", some "No caption tracks found for 'T'.") := rfl

/-- C2 (amended): when no caption track is available, `get_captions_and_title`
returns the `(None, title, message)` error triple; no speech-to-text fallback
exists in this revision. -/
theorem c2_no_captions_is_error (yt : YtVideo) (lang : String) (h : yt.captions = []) :
    get_captions_and_title (.ok yt) lang
      = (none, yt.title, some ("No caption tracks found for '" ++ yt.title ++ "'.")) := by
  simp [get_captions_and_title, h]

/-- C2 witness: the amended statement at a concrete captionless video. -/
theorem c2_no_captions_is_error_witness :
    get_captions_and_title (.ok ⟨"V", []⟩) "en"
      = (none, "V", some ("No caption tracks found for '" ++ "V" ++ "'.")) :=
  c2_no_captions_is_error ⟨"V", []⟩ "en" rfl

/-- Helper: a validated `gemini_generate` call sends exactly one request, the
full prompt. -/
theorem gemini_requests (api : Nat → String → GenOutcome) (t p : String) :
    (gemini_generate true api t p).2 = [mkFullPrompt p t] := by
  cases h : api 0 (mkFullPrompt p t) <;> simp [gemini_generate, h]

/-- C3 counterexample: a Gemini call that fails on its first attempt — and
would succeed on a second — is not re-attempted: `gemini_generate` sends
exactly one request and returns the error string immediately.  There is no
retry loop and no sleep (the `time` import is unused). -/
theorem c3_counterexample :
    gemini_generate true (fun n _ => if n = 0 then .raise "boom" else .text "ok")
        "captions" "prompt"
      = ("Error generating content: boom", [mkFullPrompt "prompt" "captions"]) := rfl

/-- C3 (amended): every `gemini_generate` invocation with a validated key makes
exactly one API call, and a raised exception on that single call is mapped
directly to an error-string result. -/
theorem c3_single_attempt (api : Nat → String → GenOutcome) (t p : String) :
    (gemini_generate true api t p).2 = [mkFullPrompt p t]
    ∧ (∀ e, api 0 (mkFullPrompt p t) = .raise e →
        (gemini_generate true api t p).1 = "Error generating content: " ++ e) := by
  refine ⟨gemini_requests api t p, ?_⟩
  intro e he
  simp [gemini_generate, he]

/-- C3 witness: the amended statement at a concrete always-failing service. -/
theorem c3_single_attempt_witness :
    (gemini_generate true (fun _ _ => .raise "x") "c" "p").2 = [mkFullPrompt "p" "c"]
    ∧ (gemini_generate true (fun _ _ => .raise "x") "c" "p").1
        = "Error generating content: " ++ "x" := by
  have h := c3_single_attempt (fun _ _ => .raise "x") "c" "p"
  exact ⟨h.1, h.2 "x" rfl⟩

/-- C5 counterexample: the Q&A request embeds the user's question, so the
request is not one of the module's fixed prompt strings concatenated with the
caption text: with the same captions it differs from every fixed-prompt
request, and it varies with the question alone. -/
theorem c5_counterexample :
    (fixedAnalysisPrompts.map (fun p => mkFullPrompt p "captions")).contains
        (mkFullPrompt (qaPrompt "Why?") "captions") = false
    ∧ mkFullPrompt (qaPrompt "Why?") "captions"
        ≠ mkFullPrompt (qaPrompt "How?") "captions" := by
  exact ⟨by decide, by decide⟩

/-- C5 (amended): every analysis request is the operation's prompt followed by
the fixed wrapper and the caption text verbatim; summary, flashcards, quiz and
key points use fixed prompt strings, while Q&A uses a fixed template with the
user's question interpolated. -/
theorem c5_requests (api : Nat → String → GenOutcome) (c q : String) :
    (gemini_generate true api c summaryPrompt).2
        = [summaryPrompt ++ "\n\nVideo Captions:\n\"\"\"\n" ++ c ++ "\n\"\"\""]
    ∧ (gemini_generate true api c (qaPrompt q)).2
        = [qaPrompt q ++ "\n\nVideo Captions:\n\"\"\"\n" ++ c ++ "\n\"\"\""]
    ∧ (gemini_generate true api c flashcardsPrompt).2
        = [flashcardsPrompt ++ "\n\nVideo Captions:\n\"\"\"\n" ++ c ++ "\n\"\"\""]
    ∧ (gemini_generate true api c quizPrompt).2
        = [quizPrompt ++ "\n\nVideo Captions:\n\"\"\"\n" ++ c ++ "\n\"\"\""]
    ∧ (gemini_generate true api c keyPointsPrompt).2
        = [keyPointsPrompt ++ "\n\nVideo Captions:\n\"\"\"\n" ++ c ++ "\n\"\"\""] :=
  ⟨gemini_requests api c summaryPrompt, gemini_requests api c (qaPrompt q),
   gemini_requests api c flashcardsPrompt, gemini_requests api c quizPrompt,
   gemini_requests api c keyPointsPrompt⟩

/-- C4: `get_captions_and_title` never propagates an exception to its caller:
raises are modelled as values, the function totally maps them, and each
modelled raise — from the `YouTube` fetch or from SRT generation — yields the
`(None, "Error", message)` triple of the matching handler. -/
theorem c4_exceptions_mapped (lang : String) :
    (∀ e : PyExn,
      get_captions_and_title (.error e) lang = (none, "Error", some (pyExnMsg e)))
    ∧ (∀ (yt : YtVideo) (cap : CaptionTrack) (e : PyExn), yt.captions ≠ [] →
        selectCaptionSpec yt.captions lang = some cap → cap.srt = .error e →
        get_captions_and_title (.ok yt) lang = (none, "Error", some (pyExnMsg e))) := by
  constructor
  · intro e
    rfl
  · intro yt cap e h hsel hsrt
    exact get_ok_srt_err yt lang cap e h hsel hsrt

/-- C4 witness: a fetch-time raise and an SRT-generation raise, both mapped. -/
theorem c4_exceptions_mapped_witness :
    get_captions_and_title (.error .regexMatch) "en"
      = (none, "Error", some (pyExnMsg .regexMatch))
    ∧ get_captions_and_title (.ok exErrVideo) "en"
      = (none, "Error", some (pyExnMsg (.pytube "net"))) := by
  have h := c4_exceptions_mapped "en"
  exact ⟨h.1 .regexMatch, h.2 exErrVideo exErrTrack (.pytube "net") (by decide) (by decide) rfl⟩

/-- C6: the Audio Overview tab synthesizes speech from exactly the stored
summary string: whenever `audioTab` passes a text to `gTTS`, that text is the
stored summary — so audio is generated only when a summary already exists. -/
theorem c6_audio_from_summary (summary audio_path : Option String)
    (fileOnDisk ttsOk : Bool) (t : String)
    (h : (audioTab summary audio_path fileOnDisk ttsOk).2 = some t) :
    summary = some t ∧ t ≠ "" := by
  unfold audioTab at h
  cases summary with
  | none => simp [truthy] at h
  | some s =>
    by_cases hs : s = ""
    · subst hs
      simp [truthy] at h
    · have htr : truthy (some s) = true := by simp [truthy, hs]
      rw [htr] at h
      cases hap : truthy audio_path with
      | true =>
        rw [hap] at h
        simp at h
      | false =>
        rw [hap] at h
        cases fileOnDisk with
        | true => simp at h
        | false =>
          cases ttsOk with
          | true =>
            simp [Option.getD] at h
            subst h
            exact ⟨rfl, hs⟩
          | false =>
            simp [Option.getD] at h
            subst h
            exact ⟨rfl, hs⟩

/-- C6 witness: a present summary, no cached audio, no file on disk: the text
passed to synthesis is the summary itself. -/
theorem c6_audio_from_summary_witness :
    (some "sum" : Option String) = some "sum" ∧ "sum" ≠ "" :=
  c6_audio_from_summary (some "sum") none false true "sum" rfl

/-- C7 counterexample: the module contains no cache usage at all: the count of
framework cache decorators across its functions is 0, not 1. -/
theorem c7_counterexample : cacheUsageCount = 0 ∧ cacheUsageCount ≠ 1 := by decide

/-- C7 (amended): no operation of this revision is memoized: the module applies
no framework cache decorator to any of its functions (the cached Whisper
loader of earlier revisions was removed). -/
theorem c7_no_cache : cacheUsageCount = 0
    ∧ appFunctions.all (fun f => f.cacheDecorators == 0) = true := by decide

/-- C8: `get_captions_and_title` returns a success or an error, exclusively:
the caption component is `None` exactly when the error component is present. -/
theorem c8_success_xor_error (fetch : Except PyExn YtVideo) (lang : String) :
    (get_captions_and_title fetch lang).1.isNone
      = (get_captions_and_title fetch lang).2.2.isSome := by
  cases fetch with
  | error e => rfl
  | ok yt =>
    by_cases h : yt.captions = []
    · simp [get_captions_and_title, h]
    · have hiss := selectCaptionSpec_isSome yt.captions lang h
      cases hsel : selectCaptionSpec yt.captions lang with
      | none => rw [hsel] at hiss; simp at hiss
      | some cap =>
        cases hsrt : cap.srt with
        | error e => rw [get_ok_srt_err yt lang cap e h hsel hsrt]; rfl
        | ok s =>
          rw [get_ok_srt_ok yt lang cap s h hsel hsrt]
          by_cases hs : s = "" <;> simp [hs]

/-- C9: whenever the entered URL differs from the stored URL the handler stores
the new URL and resets every derived session-state field to `None`. -/
theorem c9_url_change_resets (s : SessionState) (u : String) (h : u ≠ s.video_url) :
    (urlChange s u).video_url = u
    ∧ (urlChange s u).caption_text = none
    ∧ (urlChange s u).video_title = none
    ∧ (urlChange s u).processing_error = none
    ∧ (urlChange s u).summary = none
    ∧ (urlChange s u).qa_answer = none
    ∧ (urlChange s u).flashcards = none
    ∧ (urlChange s u).quiz = none
    ∧ (urlChange s u).key_points = none
    ∧ (urlChange s u).audio_summary_path = none := by
  simp [urlChange, h]

/-- C9 witness: the reset at a concrete fully populated state. -/
theorem c9_url_change_resets_witness :
    (urlChange exState "new").video_url = "new"
    ∧ (urlChange exState "new").caption_text = none
    ∧ (urlChange exState "new").video_title = none
    ∧ (urlChange exState "new").processing_error = none
    ∧ (urlChange exState "new").summary = none
    ∧ (urlChange exState "new").qa_answer = none
    ∧ (urlChange exState "new").flashcards = none
    ∧ (urlChange exState "new").quiz = none
    ∧ (urlChange exState "new").key_points = none
    ∧ (urlChange exState "new").audio_summary_path = none :=
  c9_url_change_resets exState "new" (by decide)

/-- A line of digits only is in particular a digits-plus-whitespace line. -/
theorem isIndexLine_isDigitWs (l : List Char) (h : isIndexLine l = true) :
    isDigitWsLine l = true := by
  simp only [isIndexLine, Bool.and_eq_true, List.all_eq_true] at h
  obtain ⟨hne, hall⟩ := h
  have ht : l.takeWhile Char.isDigit = l := List.takeWhile_eq_self_iff.mpr hall
  have hd : l.dropWhile Char.isDigit = [] := List.dropWhile_eq_nil_iff.mpr hall
  simp [isDigitWsLine, ht, hd, hne]

/-- After the index-removal pass no line consists only of digits. -/
theorem sub1go_no_index (L : List (List Char)) :
    (sub1go L).all (fun l => !isIndexLine l) = true := by
  induction L using sub1go.induct with
  | case1 => simp [sub1go]
  | case2 l rest hdig ih =>
    rw [sub1go, if_pos hdig]
    simp only [List.all_cons, Bool.and_eq_true]
    exact ⟨by simp [isIndexLine], ih⟩
  | case3 l rest hdig ih =>
    rw [sub1go, if_neg hdig]
    simp only [List.all_cons, Bool.and_eq_true]
    refine ⟨?_, ih⟩
    cases hil : isIndexLine l with
    | false => rfl
    | true => exact absurd (isIndexLine_isDigitWs l hil) hdig

/-- Equation lemma for `findTS` on the empty line. -/
theorem findTS_nil : findTS [] = none := rfl

/-- Equation lemma for `findTS` on a non-empty line. -/
theorem findTS_cons (c : Char) (r : List Char) :
    findTS (c :: r) =
      match chompTS (c :: r) with
      | some rest =>
        if rest.all pySpace then some [] else (findTS r).map (c :: ·)
      | none => (findTS r).map (c :: ·) := rfl

/-- A line on which the timestamp pattern matched decomposes as the kept text
followed by the non-empty matched span. -/
theorem findTS_some_decomp (l pre : List Char) (h : findTS l = some pre) :
    ∃ m, m ≠ [] ∧ l = pre ++ m := by
  induction l generalizing pre with
  | nil => rw [findTS_nil] at h; exact Option.noConfusion h
  | cons c r ih =>
    rw [findTS_cons] at h
    cases hc : chompTS (c :: r) with
    | some rest =>
      rw [hc] at h
      dsimp only at h
      by_cases hsp : rest.all pySpace = true
      · rw [if_pos hsp] at h
        obtain rfl : pre = [] := by simpa using h.symm
        exact ⟨c :: r, List.cons_ne_nil c r, rfl⟩
      · rw [if_neg hsp] at h
        cases hf : findTS r with
        | none => rw [hf] at h; simp at h
        | some pre' =>
          rw [hf] at h
          obtain rfl : pre = c :: pre' := by simpa using h.symm
          obtain ⟨m, hm, hr⟩ := ih pre' hf
          exact ⟨m, hm, by rw [List.cons_append, ← hr]⟩
    | none =>
      rw [hc] at h
      dsimp only at h
      cases hf : findTS r with
      | none => rw [hf] at h; simp at h
      | some pre' =>
        rw [hf] at h
        obtain rfl : pre = c :: pre' := by simpa using h.symm
        obtain ⟨m, hm, hr⟩ := ih pre' hf
        exact ⟨m, hm, by rw [List.cons_append, ← hr]⟩

/-- An exact timestamp line matches at its start and keeps nothing. -/
theorem findTS_of_isTS (l : List Char) (h : isTSLine l = true) :
    findTS l = some [] := by
  cases l with
  | nil =>
    have hc : chompTS ([] : List Char) = none := rfl
    simp [isTSLine, hc] at h
  | cons c r =>
    simp only [isTSLine, beq_iff_eq] at h
    rw [findTS_cons, h]
    simp

/-- Every exact timestamp line present after the timestamp pass stems from a
strictly longer line of the pass's input; in particular no input line that is
exactly a timestamp survives. -/
theorem sub2go_ts (L : List (List Char)) (l : List Char) (hm : l ∈ sub2go L)
    (hts : isTSLine l = true) : ∃ r, r ≠ [] ∧ (l ++ r) ∈ L := by
  induction L using sub2go.induct with
  | case1 => simp [sub2go] at hm
  | case2 l0 rest pre hf ih =>
    rw [sub2go, hf] at hm
    cases hm with
    | head =>
      obtain ⟨m, hmne, hdec⟩ := findTS_some_decomp l0 l hf
      exact ⟨m, hmne, by rw [← hdec]; exact List.mem_cons_self l0 rest⟩
    | tail _ hmem =>
      obtain ⟨r, hrne, hr⟩ := ih hmem
      exact ⟨r, hrne, List.mem_cons_of_mem l0 ((List.dropWhile_sublist _).subset hr)⟩
  | case3 l0 rest hf ih =>
    rw [sub2go, hf] at hm
    cases hm with
    | head => exact absurd (findTS_of_isTS l hts) (by rw [hf]; simp)
    | tail _ hmem =>
      obtain ⟨r, hrne, hr⟩ := ih hmem
      exact ⟨r, hrne, List.mem_cons_of_mem l0 hr⟩

/-- Tag removal only deletes characters. -/
theorem mem_removeTags (l : List Char) (a : Char) (h : a ∈ removeTags l) :
    a ∈ l := by
  induction l using removeTags.induct with
  | case1 => rw [removeTags] at h; exact absurd h (List.not_mem_nil a)
  | case2 c r hg ih =>
    rw [removeTags, if_pos hg] at h
    have h1 : a ∈ (r.dropWhile (· != '>')).drop 1 := ih h
    have h2 : a ∈ r.dropWhile (· != '>') := (List.drop_sublist 1 _).subset h1
    exact List.mem_cons_of_mem c ((List.dropWhile_sublist _).subset h2)
  | case3 c r hg ih =>
    rw [removeTags, if_neg hg] at h
    cases h with
    | head => exact List.mem_cons_self _ _
    | tail _ hm => exact List.mem_cons_of_mem c (ih hm)

/-- After tag removal a line contains no `<` with a later `>`. -/
theorem hasTag_removeTags (l : List Char) : hasTag (removeTags l) = false := by
  induction l using removeTags.induct with
  | case1 => rw [removeTags]; rfl
  | case2 c r hg ih => rw [removeTags, if_pos hg]; exact ih
  | case3 c r hg ih =>
    rw [removeTags, if_neg hg, hasTag, ih, Bool.or_false]
    by_cases hc : (c == '<') = true
    · have hr : r.contains '>' = false := by
        cases hcr : r.contains '>' with
        | false => rfl
        | true => rw [hc, hcr] at hg; exact absurd rfl hg
      have hrt2 : (removeTags r).contains '>' = false := by
        cases hrt : (removeTags r).contains '>' with
        | false => rfl
        | true =>
          have hmem : '>' ∈ removeTags r := by simpa using hrt
          have hmr : '>' ∈ r := mem_removeTags r '>' hmem
          have : '>' ∉ r := by simpa using hr
          exact absurd hmr this
      rw [hrt2, Bool.and_false]
    · have : (c == '<') = false := by
        cases hcb : c == '<' with
        | false => rfl
        | true => exact absurd hcb hc
      rw [this, Bool.false_and]

/-- Tag removal over whole line lists leaves no tags. -/
theorem map_removeTags_no_tag (M : List (List Char)) :
    (M.map removeTags).all (fun l => !hasTag l) = true := by
  rw [List.all_eq_true]
  intro x hx
  rw [List.mem_map] at hx
  obtain ⟨y, _, rfl⟩ := hx
  simp [hasTag_removeTags]

/-- Equation lemma for `sub4go` on the empty list. -/
theorem sub4go_nil : sub4go [] = [] := by rw [sub4go]

/-- Equation lemma for `sub4go` on a single line. -/
theorem sub4go_single (l : List Char) : sub4go [l] = [l] := by rw [sub4go]

/-- Equation lemma: a trailing all-blank run collapses to its last line. -/
theorem sub4go_blank_end (l m : List Char) (rest : List (List Char))
    (hb : isBlankLine m = true) (heq : (m :: rest).dropWhile isBlankLine = []) :
    sub4go (l :: m :: rest) = [l, (m :: rest).getLast (by simp)] := by
  rw [sub4go, if_pos hb]
  split
  · rfl
  · rename_i k ks hkk
    rw [heq] at hkk
    exact absurd hkk (by simp)

/-- Equation lemma: an interior blank run is skipped. -/
theorem sub4go_blank_skip (l m : List Char) (rest : List (List Char))
    (hb : isBlankLine m = true) (k : List Char) (ks : List (List Char))
    (heq : (m :: rest).dropWhile isBlankLine = k :: ks) :
    sub4go (l :: m :: rest) = l :: sub4go (k :: ks) := by
  rw [sub4go, if_pos hb]
  split
  · rename_i hkk
    rw [heq] at hkk
    exact absurd hkk (by simp)
  · rename_i k' ks' hkk
    rw [heq] at hkk
    cases hkk
    rfl

/-- Equation lemma: a non-blank successor line is kept. -/
theorem sub4go_nonblank (l m : List Char) (rest : List (List Char))
    (hb : isBlankLine m = false) :
    sub4go (l :: m :: rest) = l :: sub4go (m :: rest) := by
  rw [sub4go, if_neg (by simp [hb])]

/-- The blank-collapsing pass only keeps existing lines. -/
theorem sub4go_mem (L : List (List Char)) (x : List Char) (h : x ∈ sub4go L) :
    x ∈ L := by
  induction L using sub4go.induct with
  | case1 => rw [sub4go_nil] at h; exact absurd h (List.not_mem_nil x)
  | case2 l => rwa [sub4go_single] at h
  | case3 l m rest hb heq =>
    rw [sub4go_blank_end l m rest hb heq] at h
    cases h with
    | head => exact List.mem_cons_self _ _
    | tail _ h2 =>
      cases h2 with
      | head => exact List.mem_cons_of_mem l (List.getLast_mem (by simp))
      | tail _ h3 => exact absurd h3 (List.not_mem_nil x)
  | case4 l m rest hb k ks heq ih =>
    rw [sub4go_blank_skip l m rest hb k ks heq] at h
    cases h with
    | head => exact List.mem_cons_self _ _
    | tail _ h2 =>
      have h3 : x ∈ k :: ks := ih h2
      rw [← heq] at h3
      exact List.mem_cons_of_mem l ((List.dropWhile_sublist _).subset h3)
  | case5 l m rest hb ih =>
    rw [sub4go_nonblank l m rest (by simpa using hb)] at h
    cases h with
    | head => exact List.mem_cons_self _ _
    | tail _ h2 => exact List.mem_cons_of_mem l (ih h2)

/-- The blank-collapsing pass keeps the first line in place. -/
theorem sub4go_head (l : List Char) (ls : List (List Char)) :
    ∃ t, sub4go (l :: ls) = l :: t := by
  cases ls with
  | nil => exact ⟨[], sub4go_single l⟩
  | cons m rest =>
    cases hb : isBlankLine m with
    | true =>
      cases heq : (m :: rest).dropWhile isBlankLine with
      | nil => exact ⟨[(m :: rest).getLast (by simp)], sub4go_blank_end l m rest hb heq⟩
      | cons k ks => exact ⟨sub4go (k :: ks), sub4go_blank_skip l m rest hb k ks heq⟩
    | false => exact ⟨sub4go (m :: rest), sub4go_nonblank l m rest hb⟩

/-- After the blank-collapsing pass every line between the first and the last
is non-blank. -/
theorem sub4go_interior (L : List (List Char)) :
    interiorNonblank (sub4go L) = true := by
  induction L using sub4go.induct with
  | case1 => rw [sub4go_nil]; rfl
  | case2 l => rw [sub4go_single]; rfl
  | case3 l m rest hb heq => rw [sub4go_blank_end l m rest hb heq]; rfl
  | case4 l m rest hb k ks heq ih =>
    rw [sub4go_blank_skip l m rest hb k ks heq]
    obtain ⟨t, ht⟩ := sub4go_head k ks
    rw [ht] at ih ⊢
    have hk : isBlankLine k = false := by
      have h5 := List.head?_dropWhile_not isBlankLine (m :: rest)
      rw [heq] at h5
      simpa using h5
    cases t with
    | nil => rfl
    | cons x xs =>
      have ihm : midNonblank (x :: xs) = true := ih
      show midNonblank (k :: x :: xs) = true
      have heq2 : midNonblank (k :: x :: xs) = (!isBlankLine k && midNonblank (x :: xs)) := rfl
      rw [heq2, hk, ihm]
      rfl
  | case5 l m rest hb ih =>
    have hb' : isBlankLine m = false := by simpa using hb
    rw [sub4go_nonblank l m rest hb']
    obtain ⟨t, ht⟩ := sub4go_head m rest
    rw [ht] at ih ⊢
    cases t with
    | nil => rfl
    | cons x xs =>
      have ihm : midNonblank (x :: xs) = true := ih
      show midNonblank (m :: x :: xs) = true
      have heq2 : midNonblank (m :: x :: xs) = (!isBlankLine m && midNonblank (x :: xs)) := rfl
      rw [heq2, hb', ihm]
      rfl

/-- Lines produced by splitting contain no newline. -/
theorem linesOf_no_nl (t : List Char) (l : List Char) (hm : l ∈ linesOf t) :
    '\n' ∉ l := by
  induction t generalizing l with
  | nil =>
    have : l = [] := by simpa [linesOf] using hm
    simp [this]
  | cons c r ih =>
    by_cases hc : c = '\n'
    · rw [linesOf, if_pos hc] at hm
      cases hm with
      | head => simp
      | tail _ h2 => exact ih l h2
    · rw [linesOf, if_neg hc] at hm
      cases hr : linesOf r with
      | nil => rw [hr] at hm; simp at hm; simp [hm, Ne.symm hc]
      | cons l0 ls =>
        rw [hr] at hm
        dsimp only at hm
        cases hm with
        | head =>
          intro hcon
          cases hcon with
          | head => exact hc rfl
          | tail _ h3 =>
            exact ih l0 (by rw [hr]; exact List.mem_cons_self _ _) h3
        | tail _ h2 =>
          exact ih l (by rw [hr]; exact List.mem_cons_of_mem l0 h2)

/-- The index pass only keeps existing lines or introduces empty ones. -/
theorem sub1go_mem (L : List (List Char)) (x : List Char) (h : x ∈ sub1go L) :
    x = [] ∨ x ∈ L := by
  induction L using sub1go.induct with
  | case1 => rw [sub1go] at h; exact absurd h (List.not_mem_nil x)
  | case2 l rest hdig ih =>
    rw [sub1go, if_pos hdig] at h
    cases h with
    | head => exact Or.inl rfl
    | tail _ h2 =>
      cases ih h2 with
      | inl he => exact Or.inl he
      | inr hmem =>
        exact Or.inr (List.mem_cons_of_mem l ((List.dropWhile_sublist _).subset hmem))
  | case3 l rest hdig ih =>
    rw [sub1go, if_neg hdig] at h
    cases h with
    | head => exact Or.inr (List.mem_cons_self _ _)
    | tail _ h2 =>
      cases ih h2 with
      | inl he => exact Or.inl he
      | inr hmem => exact Or.inr (List.mem_cons_of_mem l hmem)

/-- Every line kept by the timestamp pass is a prefix of an input line. -/
theorem sub2go_mem_src (L : List (List Char)) (x : List Char) (h : x ∈ sub2go L) :
    ∃ l' m, l' ∈ L ∧ l' = x ++ m := by
  induction L using sub2go.induct with
  | case1 => rw [sub2go] at h; exact absurd h (List.not_mem_nil x)
  | case2 l rest pre hf ih =>
    rw [sub2go, hf] at h
    cases h with
    | head =>
      obtain ⟨m, _, hdec⟩ := findTS_some_decomp l x hf
      exact ⟨l, m, List.mem_cons_self _ _, hdec⟩
    | tail _ h2 =>
      obtain ⟨l', m, hmem, hdec⟩ := ih h2
      exact ⟨l', m, List.mem_cons_of_mem l ((List.dropWhile_sublist _).subset hmem), hdec⟩
  | case3 l rest hf ih =>
    rw [sub2go, hf] at h
    cases h with
    | head => exact ⟨x, [], List.mem_cons_self _ _, (List.append_nil x).symm⟩
    | tail _ h2 =>
      obtain ⟨l', m, hmem, hdec⟩ := ih h2
      exact ⟨l', m, List.mem_cons_of_mem l hmem, hdec⟩

/-- No line of the fully processed line list contains a newline. -/
theorem pipeline_no_nl (t : List Char) (x : List Char)
    (h : x ∈ sub4go ((sub2go (sub1go (linesOf t))).map removeTags)) :
    '\n' ∉ x := by
  intro hnl
  have h1 : x ∈ (sub2go (sub1go (linesOf t))).map removeTags := sub4go_mem _ x h
  rw [List.mem_map] at h1
  obtain ⟨y, hy, rfl⟩ := h1
  have hnl2 : '\n' ∈ y := mem_removeTags y '\n' hnl
  obtain ⟨l', m, hl', hdec⟩ := sub2go_mem_src _ y hy
  have hnl3 : '\n' ∈ l' := by rw [hdec]; exact List.mem_append_left m hnl2
  cases sub1go_mem _ l' hl' with
  | inl he => rw [he] at hnl3; exact absurd hnl3 (List.not_mem_nil _)
  | inr hmem => exact absurd hnl3 (linesOf_no_nl t l' hmem)

/-- Containment is false for a non-member. -/
theorem contains_eq_false_of_not_mem (l : List Char) (a : Char) (h : a ∉ l) :
    l.contains a = false := by
  cases hc : l.contains a with
  | false => rfl
  | true =>
    obtain ⟨a', ha', hbeq⟩ := List.contains_iff_exists_mem_beq.mp hc
    rw [beq_iff_eq] at hbeq
    rw [hbeq] at h
    exact absurd ha' h

/-- Equation lemma for `hasBlankGap` on a cons. -/
theorem hasBlankGap_cons (c : Char) (r : List Char) :
    hasBlankGap (c :: r)
      = ((c == '\n' && (r.takeWhile pySpace).contains '\n') || hasBlankGap r) := rfl

/-- Newline-free text has no blank gap. -/
theorem gap_of_no_nl (l : List Char) (h : '\n' ∉ l) : hasBlankGap l = false := by
  induction l with
  | nil => rfl
  | cons c r ih =>
    rw [hasBlankGap_cons]
    have hc : (c == '\n') = false := by
      cases hb : c == '\n' with
      | false => rfl
      | true =>
        rw [beq_iff_eq] at hb
        exact absurd (by rw [hb]; exact List.mem_cons_self _ _) h
    rw [hc, Bool.false_and, Bool.false_or]
    exact ih (fun hm => h (List.mem_cons_of_mem c hm))

/-- A newline-free initial segment does not affect the blank-gap test. -/
theorem gap_append_no_nl (l s : List Char) (h : '\n' ∉ l) :
    hasBlankGap (l ++ s) = hasBlankGap s := by
  induction l with
  | nil => rfl
  | cons c r ih =>
    rw [List.cons_append, hasBlankGap_cons]
    have hc : (c == '\n') = false := by
      cases hb : c == '\n' with
      | false => rfl
      | true =>
        rw [beq_iff_eq] at hb
        exact absurd (by rw [hb]; exact List.mem_cons_self _ _) h
    rw [hc, Bool.false_and, Bool.false_or]
    exact ih (fun hm => h (List.mem_cons_of_mem c hm))

/-- `takeWhile` of an appended list stops inside the first part when the first
part is not all-true. -/
theorem takeWhile_append_of_not_all (p : Char → Bool) (m s : List Char)
    (h : m.all p = false) : (m ++ s).takeWhile p = m.takeWhile p := by
  induction m with
  | nil => simp at h
  | cons c m' ih =>
    by_cases hp : p c = true
    · rw [List.all_cons, hp, Bool.true_and] at h
      rw [List.cons_append, List.takeWhile_cons_of_pos hp, List.takeWhile_cons_of_pos hp,
        ih h]
    · have hp' : ¬ p c := by simpa using hp
      rw [List.cons_append, List.takeWhile_cons_of_neg hp', List.takeWhile_cons_of_neg hp']

/-- Joining newline-free lines whose non-final lines are all non-blank gives a
text whose leading whitespace holds no newline and which has no blank gap. -/
theorem unlines_tail_gapfree (M : List (List Char)) (hne : M ≠ [])
    (hnl : ∀ x ∈ M, '\n' ∉ x) (hmid : midNonblank M = true) :
    ((unlines M).takeWhile pySpace).contains '\n' = false
    ∧ hasBlankGap (unlines M) = false := by
  induction M with
  | nil => exact absurd rfl hne
  | cons m M' ih =>
    cases M' with
    | nil =>
      have hm : '\n' ∉ m := hnl m (List.mem_cons_self _ _)
      have h1 : unlines [m] = m := rfl
      rw [h1]
      constructor
      · exact contains_eq_false_of_not_mem _ _
          (fun hc => hm (List.takeWhile_subset pySpace hc))
      · exact gap_of_no_nl m hm
    | cons m2 M'' =>
      have hmb : isBlankLine m = false ∧ midNonblank (m2 :: M'') = true := by
        have : midNonblank (m :: m2 :: M'')
            = (!isBlankLine m && midNonblank (m2 :: M'')) := rfl
        rw [this] at hmid
        simp only [Bool.and_eq_true, Bool.not_eq_true'] at hmid
        exact hmid
      have hnl' : ∀ x ∈ m2 :: M'', '\n' ∉ x :=
        fun x hx => hnl x (List.mem_cons_of_mem m hx)
      obtain ⟨ih1, ih2⟩ := ih (by simp) hnl' hmb.2
      have hm : '\n' ∉ m := hnl m (List.mem_cons_self _ _)
      have hu : unlines (m :: m2 :: M'') = m ++ '\n' :: unlines (m2 :: M'') := rfl
      rw [hu]
      constructor
      · have hall : m.all pySpace = false := hmb.1
        rw [takeWhile_append_of_not_all pySpace m _ hall]
        exact contains_eq_false_of_not_mem _ _
          (fun hc => hm (List.takeWhile_subset pySpace hc))
      · rw [gap_append_no_nl m _ hm, hasBlankGap_cons, ih1, ih2]
        rfl

/-- Joining newline-free lines with non-blank interior lines gives a text with
no blank gap. -/
theorem unlines_gapfree (M : List (List Char))
    (hnl : ∀ x ∈ M, '\n' ∉ x) (hint : interiorNonblank M = true) :
    hasBlankGap (unlines M) = false := by
  cases M with
  | nil => rfl
  | cons l M' =>
    cases M' with
    | nil => exact gap_of_no_nl l (hnl l (List.mem_cons_self _ _))
    | cons m2 M'' =>
      have hu : unlines (l :: m2 :: M'') = l ++ '\n' :: unlines (m2 :: M'') := rfl
      have hmid : midNonblank (m2 :: M'') = true := hint
      have hnl' : ∀ x ∈ m2 :: M'', '\n' ∉ x :=
        fun x hx => hnl x (List.mem_cons_of_mem l hx)
      obtain ⟨h1, h2⟩ := unlines_tail_gapfree (m2 :: M'') (by simp) hnl' hmid
      rw [hu, gap_append_no_nl l _ (hnl l (List.mem_cons_self _ _)),
        hasBlankGap_cons, h1, h2]
      rfl

/-- `strip` yields an infix of the text. -/
theorem pyStrip_decomp (t : List Char) :
    ∃ a b, t = a ++ (pyStrip t ++ b) := by
  refine ⟨t.takeWhile pySpace,
    ((t.dropWhile pySpace).reverse.takeWhile pySpace).reverse, ?_⟩
  have h1 : t.takeWhile pySpace ++ t.dropWhile pySpace = t :=
    List.takeWhile_append_dropWhile pySpace t
  have h2 : (t.dropWhile pySpace).reverse.takeWhile pySpace
      ++ (t.dropWhile pySpace).reverse.dropWhile pySpace
      = (t.dropWhile pySpace).reverse :=
    List.takeWhile_append_dropWhile pySpace _
  have h3 : t.dropWhile pySpace
      = pyStrip t ++ ((t.dropWhile pySpace).reverse.takeWhile pySpace).reverse := by
    have h4 := congrArg List.reverse h2
    rw [List.reverse_append, List.reverse_reverse] at h4
    exact h4.symm
  rw [← h3, h1]

/-- A blank gap in a suffix is a blank gap. -/
theorem gap_append_right (l s : List Char) (h : hasBlankGap s = true) :
    hasBlankGap (l ++ s) = true := by
  induction l with
  | nil => exact h
  | cons c l' ih =>
    rw [List.cons_append, hasBlankGap_cons, ih]
    exact Bool.or_true _

/-- A member of `takeWhile` of a list stays in `takeWhile` of that list with a
suffix appended. -/
theorem mem_takeWhile_append (p : Char → Bool) (a : Char) (l s : List Char)
    (h : a ∈ l.takeWhile p) : a ∈ (l ++ s).takeWhile p := by
  induction l with
  | nil => simp at h
  | cons c l' ih =>
    by_cases hp : p c = true
    · rw [List.takeWhile_cons_of_pos hp] at h
      rw [List.cons_append, List.takeWhile_cons_of_pos hp]
      cases h with
      | head => exact List.mem_cons_self _ _
      | tail _ h2 => exact List.mem_cons_of_mem c (ih h2)
    · rw [List.takeWhile_cons_of_neg (by simpa using hp)] at h
      exact absurd h (List.not_mem_nil a)

/-- A blank gap survives appending a suffix. -/
theorem gap_append_left (u b : List Char) (h : hasBlankGap u = true) :
    hasBlankGap (u ++ b) = true := by
  induction u with
  | nil => simp [hasBlankGap] at h
  | cons c u' ih =>
    rw [hasBlankGap_cons] at h
    rw [List.cons_append, hasBlankGap_cons]
    cases hor : (c == '\n' && (u'.takeWhile pySpace).contains '\n') with
    | true =>
      have hc : (c == '\n') = true ∧ (u'.takeWhile pySpace).contains '\n' = true := by
        simpa using hor
      have hmem : '\n' ∈ u'.takeWhile pySpace := by
        obtain ⟨a', ha', hbeq⟩ := List.contains_iff_exists_mem_beq.mp hc.2
        rw [beq_iff_eq] at hbeq
        rwa [hbeq]
      have hmem2 : '\n' ∈ (u' ++ b).takeWhile pySpace :=
        mem_takeWhile_append pySpace '\n' u' b hmem
      have hcont : ((u' ++ b).takeWhile pySpace).contains '\n' = true :=
        List.contains_iff_exists_mem_beq.mpr ⟨'\n', hmem2, by simp⟩
      rw [hc.1, hcont]
      rfl
    | false =>
      rw [hor, Bool.false_or] at h
      rw [ih h]
      exact Bool.or_true _

/-- Stripping preserves the absence of blank gaps. -/
theorem gapfree_pyStrip (t : List Char) (h : hasBlankGap t = false) :
    hasBlankGap (pyStrip t) = false := by
  cases hg : hasBlankGap (pyStrip t) with
  | false => rfl
  | true =>
    obtain ⟨a, b, hdec⟩ := pyStrip_decomp t
    have : hasBlankGap t = true := by
      rw [hdec]
      exact gap_append_right a _ (gap_append_left _ b hg)
    rw [this] at h
    exact Bool.noConfusion h

/-- Dropping a satisfying prefix does not change the last element. -/
theorem getLast?_dropWhile_ne (p : Char → Bool) (w : List Char)
    (h : w.dropWhile p ≠ []) : (w.dropWhile p).getLast? = w.getLast? := by
  induction w with
  | nil => simp at h
  | cons c w' ih =>
    by_cases hp : p c = true
    · rw [List.dropWhile_cons_of_pos hp] at h ⊢
      have hne : w' ≠ [] := by
        intro he
        rw [he] at h
        simp at h
      rw [ih h]
      cases w' with
      | nil => exact absurd rfl hne
      | cons x xs => rw [List.getLast?_cons_cons]
    · rw [List.dropWhile_cons_of_neg (by simpa using hp)]

/-- The result of `strip` carries no whitespace at either end. -/
theorem strippedEnds_pyStrip (t : List Char) : strippedEnds (pyStrip t) = true := by
  have hps : pyStrip t = ((t.dropWhile pySpace).reverse.dropWhile pySpace).reverse := rfl
  cases hv : (t.dropWhile pySpace).reverse.dropWhile pySpace with
  | nil => rw [hps, hv]; rfl
  | cons c cs =>
    have hlast : (pyStrip t).getLast? = some c := by
      rw [hps, hv, List.getLast?_reverse]
      rfl
    have hcs : pySpace c = false := by
      have h5 := List.head?_dropWhile_not pySpace (t.dropWhile pySpace).reverse
      rw [hv] at h5
      simpa using h5
    have hune : t.dropWhile pySpace ≠ [] := by
      intro he
      rw [he] at hv
      simp at hv
    have hhead : (pyStrip t).head? = (t.dropWhile pySpace).head? := by
      rw [hps, List.head?_reverse,
        getLast?_dropWhile_ne pySpace _ (by rw [hv]; simp), List.getLast?_reverse]
    cases hu : (t.dropWhile pySpace).head? with
    | none =>
      have hnil : t.dropWhile pySpace = [] := by
        cases hx : t.dropWhile pySpace with
        | nil => rfl
        | cons y ys => rw [hx] at hu; simp at hu
      exact absurd hnil hune
    | some c' =>
      have hcs' : pySpace c' = false := by
        have h6 := List.head?_dropWhile_not pySpace t
        rw [hu] at h6
        simpa using h6
      have hh2 : (pyStrip t).head? = some c' := by rw [hhead, hu]
      unfold strippedEnds
      rw [hh2, hlast]
      dsimp only
      rw [hcs, hcs']
      rfl

/-- C10: `clean_srt` removes every line consisting only of an index number
(after the index pass no digit-only line remains anywhere); removes every SRT
timestamp line of the exact `HH:MM:SS,mmm --> HH:MM:SS,mmm` form (a timestamp
line present after the timestamp pass can only stem from a strictly longer
input line, so no timestamp line itself survives); removes all angle-bracket
tags (after the tag pass no line holds a `<` with a later `>`); collapses runs
of blank lines to a single newline (the cleaned result has no blank line
between newlines); and returns a string with no leading or trailing
whitespace. -/
theorem c10_clean_srt (t : List Char) :
    ((sub1go (linesOf t)).all (fun l => !isIndexLine l) = true)
    ∧ (∀ l, l ∈ sub2go (sub1go (linesOf t)) → isTSLine l = true →
        ∃ r, r ≠ [] ∧ (l ++ r) ∈ sub1go (linesOf t))
    ∧ (((sub2go (sub1go (linesOf t))).map removeTags).all (fun l => !hasTag l) = true)
    ∧ hasBlankGap (cleanSrtL t) = false
    ∧ strippedEnds (cleanSrtL t) = true := by
  refine ⟨sub1go_no_index _, fun l hm hts => sub2go_ts _ l hm hts,
    map_removeTags_no_tag _, ?_, strippedEnds_pyStrip _⟩
  exact gapfree_pyStrip _
    (unlines_gapfree _ (fun x hx => pipeline_no_nl t x hx) (sub4go_interior _))

/-- C10 witness: on the input made of two juxtaposed timestamps the surviving
timestamp line stems from the longer original line. -/
theorem c10_clean_srt_witness :
    ∃ r, r ≠ [] ∧ (tsChars ++ r) ∈ sub1go (linesOf (tsChars ++ tsChars)) := by
  have hl : linesOf (tsChars ++ tsChars) = [tsChars ++ tsChars] := by decide
  have h2 : sub1go (linesOf (tsChars ++ tsChars)) = [tsChars ++ tsChars] := by
    rw [hl, sub1go, if_neg (by decide), sub1go]
  have hf : findTS (tsChars ++ tsChars) = some tsChars := by decide
  have h3 : sub2go (sub1go (linesOf (tsChars ++ tsChars))) = [tsChars] := by
    rw [h2, sub2go, hf, List.dropWhile_nil, sub2go]
  exact (c10_clean_srt (tsChars ++ tsChars)).2.1 tsChars
    (by rw [h3]; exact List.mem_cons_self _ _) (by decide)
